import Mathlib

/-
Verification of the itermultipart streaming multipart encoder.

The Go source is shallowly embedded: byte strings are char lists (all the
relevant data is ASCII), the stateful Source is a record threaded through a
step function, io.Reader content streams are the char lists they deliver,
and fallible operations return Option or a paired error value.  Names follow
the Go source wherever Lean permits.
-/

namespace Itermultipart

/-- Part models the Go Part struct (reader.go): a MIME header map, a content
stream (the byte sequence the io.Reader delivers), and the lazily cached
Content-Disposition data.  The header map is an association list from key to
the ordered value list; Go map iteration order is irrelevant because the
encoder sorts keys before emitting.  dispositionParams is none when the Go
map is nil. -/
structure Part where
  header : List (String × List String)
  content : List Char
  disposition : String
  dispositionParams : Option (List (String × String))
  deriving DecidableEq

/-- NewPart models the Go NewPart constructor: empty header, no content,
no cached disposition. -/
def NewPart : Part := ⟨[], [], "", none⟩

/-- headerSet models textproto MIMEHeader Set: replace the value list of the
key by the single given value (keys used by this development are already in
canonical form, so canonicalisation is the identity). -/
def headerSet : List (String × List String) → String → String → List (String × List String)
  | [], k, v => [(k, [v])]
  | (k0, vs) :: rest, k, v =>
      if k0 = k then (k, [v]) :: rest else (k0, vs) :: headerSet rest k v

/-- headerValues models indexing the Go header map: the value list of the
key, or the empty list when absent. -/
def headerValues : List (String × List String) → String → List String
  | [], _ => []
  | (k0, vs) :: rest, k => if k0 = k then vs else headerValues rest k

/-- headerGet models textproto MIMEHeader Get: the first value of the key,
or the empty string. -/
def headerGet (h : List (String × List String)) (k : String) : String :=
  (headerValues h k).headD ""

/-- paramsSet models assignment into the Go disposition parameter map. -/
def paramsSet : List (String × String) → String → String → List (String × String)
  | [], k, v => [(k, v)]
  | (k0, v0) :: rest, k, v =>
      if k0 = k then (k, v) :: rest else (k0, v0) :: paramsSet rest k v

/-- paramsGet models reading the Go disposition parameter map (missing key
gives the empty string). -/
def paramsGet : List (String × String) → String → String
  | [], _ => ""
  | (k0, v0) :: rest, k => if k0 = k then v0 else paramsGet rest k

/-- charsLt is lexicographic order on char lists by code point; on ASCII it
coincides with the byte order Go uses to sort strings. -/
def charsLt : List Char → List Char → Bool
  | [], [] => false
  | [], _ :: _ => true
  | _ :: _, [] => false
  | a :: as, b :: bs =>
      decide (a.toNat < b.toNat) || (a.toNat == b.toNat && charsLt as bs)

/-- keyLt compares header keys the way slices.Sorted orders Go strings. -/
def keyLt (a b : String) : Bool := charsLt a.data b.data

/-- insertByKey is the insertion step of the key sort used when emitting
headers. -/
def insertByKey (x : String × List String) :
    List (String × List String) → List (String × List String)
  | [] => [x]
  | y :: ys => if keyLt x.1 y.1 then x :: y :: ys else y :: insertByKey x ys

/-- sortByKey models slices.Sorted(maps.Keys(header)): the header entries in
ascending key order (keys of a Go map are distinct, so any correct sort
yields the same sequence). -/
def sortByKey : List (String × List String) → List (String × List String)
  | [] => []
  | x :: xs => insertByKey x (sortByKey xs)

/-- headerBytes is the header block of populatePartHeading: for each key in
ascending order, for each of its values in insertion order, the line
CRLF key ": " value. -/
def headerBytes (h : List (String × List String)) : List Char :=
  ((sortByKey h).map fun kv =>
    (kv.2.map fun v => "\r\n".data ++ kv.1.data ++ ": ".data ++ v.data).flatten).flatten

/-- populatePartHeading models Source.populatePartHeading: "--" boundary for
the very first heading, CRLF "--" boundary otherwise, then the sorted header
lines, then the blank line before the content. -/
def populatePartHeading (firstHeadingWritten : Bool) (bd : List Char) (p : Part) : List Char :=
  (if firstHeadingWritten then "\r\n--".data else "--".data)
    ++ bd ++ headerBytes p.header ++ "\r\n\r\n".data

/-- populateEnding models Source.populateEnding: the closing delimiter line
CRLF "--" boundary "--" CRLF. -/
def populateEnding (bd : List Char) : List Char :=
  "\r\n--".data ++ bd ++ "--\r\n".data

/-- Source models the Go Source struct.  parts is the sequence field used by
WriteTo; pullState is the lazily created pull iterator (none before the
first Read, some of the still unpulled parts afterwards); lastPart is the
remaining content of the active part; buffered is the staging buffer.  The
sequence is modelled as the error-free finite sequences produced by PartSeq,
which is what every claim quantifies over. -/
structure Source where
  boundary : List Char
  parts : List Part
  pullState : Option (List Part)
  buffered : List Char
  firstHeadingWritten : Bool
  lastPart : Option (List Char)
  finalizing : Bool
  closed : Bool
  deriving DecidableEq

/-- NewSource models the Go NewSource constructor.  Go draws the boundary
from 30 secure-random bytes hex-encoded; following the design note that
randomness is an injected provider, the generated boundary is the bd
argument here. -/
def NewSource (bd : List Char) (parts : List Part) : Source :=
  ⟨bd, parts, none, [], false, none, false, false⟩

/-- ReadResult is the error component of Source.Read: nil, io.EOF, or the
"source is closed" error. -/
inductive ReadResult where
  | ok
  | eof
  | errClosed
  deriving DecidableEq

/-- afterPull is the straight-line tail of Source.Read after the pull step:
drain the staging buffer into the caller buffer, then either finish a
finalizing call (EOF only when nothing was delivered) or stream from the
active part's content with the remaining capacity.  Reading a drained
content stream yields io.EOF, which releases the active part; the none arm
is unreachable from Source.read (the dispatcher pulls a part first). -/
def afterPull (s : Source) (cap : Nat) : List Char × ReadResult × Source :=
  if s.finalizing then
    if s.buffered.take cap = [] then
      ([], .eof, { s with buffered := s.buffered.drop cap })
    else
      (s.buffered.take cap, .ok, { s with buffered := s.buffered.drop cap })
  else
    match s.lastPart with
    | some cont =>
        if cont = [] then
          (s.buffered.take cap, .ok,
            { s with buffered := s.buffered.drop cap, lastPart := none })
        else
          (s.buffered.take cap ++ cont.take (cap - (s.buffered.take cap).length), .ok,
            { s with buffered := s.buffered.drop cap,
                     lastPart := some (cont.drop (cap - (s.buffered.take cap).length)) })
    | none => (s.buffered.take cap, .ok, { s with buffered := s.buffered.drop cap })

/-- readCore is Source.Read after the closed check and the lazy creation of
the pull iterator: pull the next part when no part is active and the source
is not finalizing.  An exhausted sequence switches to finalizing and the
call reads straight from the freshly filled trailer buffer (hence .ok even
when the whole trailer fits); a pulled part has its heading staged and
becomes active.  In both remaining paths control falls into afterPull. -/
def readCore (s : Source) (cap : Nat) : List Char × ReadResult × Source :=
  if s.lastPart = none ∧ s.finalizing = false then
    match s.pullState.getD [] with
    | [] =>
        ((populateEnding s.boundary).take cap, .ok,
          { s with finalizing := true,
                   buffered := (populateEnding s.boundary).drop cap })
    | part :: rest =>
        afterPull
          { s with pullState := some rest,
                   lastPart := some part.content,
                   firstHeadingWritten := true,
                   buffered := populatePartHeading s.firstHeadingWritten s.boundary part }
          cap
  else afterPull s cap

/-- read models Source.Read: fail when closed, otherwise install the pull
iterator if it does not exist yet (iter.Pull2 over the parts field) and run
the body. -/
def Source.read (s : Source) (cap : Nat) : List Char × ReadResult × Source :=
  if s.closed then ([], .errClosed, s)
  else readCore { s with pullState := some (s.pullState.getD s.parts) } cap

/-- readAll drives repeated incremental reads with a fixed chunk capacity,
concatenating the delivered slices until io.EOF, the way bytes.Buffer
ReadFrom consumes the source; fuel bounds the number of calls and none
means the fuel ran out or an error surfaced. -/
def readAll : Nat → Source → Nat → Option (List Char)
  | 0, _, _ => none
  | fuel + 1, s, cap =>
      match s.read cap with
      | (chunk, .ok, s1) => (readAll fuel s1 cap).map fun out => chunk ++ out
      | (chunk, .eof, _) => some chunk
      | (_, .errClosed, _) => none

/-- writeToLoop is the loop of Source.WriteTo over the error-free part
sequence: each part's heading then its content bytes (writePartContent's
three transfer strategies all deliver exactly the content), and after the
last part the trailer. -/
def writeToLoop (fhw : Bool) (bd : List Char) : List Part → List Char
  | [] => populateEnding bd
  | p :: rest => populatePartHeading fhw bd p ++ (p.content ++ writeToLoop true bd rest)

/-- writeTo models Source.WriteTo: fail when closed, otherwise the bytes the
bulk copy writes to the sink.  It iterates the parts field itself, not the
pull iterator. -/
def Source.writeTo (s : Source) : Option (List Char) :=
  if s.closed then none
  else some (writeToLoop s.firstHeadingWritten s.boundary s.parts)

/-- BoundaryError distinguishes the three SetBoundary failures. -/
inductive BoundaryError where
  | calledAfterRead
  | invalidLength
  | invalidChar
  deriving DecidableEq

/-- isBoundaryAlnum is the ASCII letter-or-digit test of the SetBoundary
character loop. -/
def isBoundaryAlnum (c : Char) : Bool :=
  decide (('A' ≤ c ∧ c ≤ 'Z') ∨ ('a' ≤ c ∧ c ≤ 'z') ∨ ('0' ≤ c ∧ c ≤ '9'))

/-- isBoundarySpecialChar is the switch over the punctuation the boundary
may contain (apostrophe is Char.ofNat 39). -/
def isBoundarySpecialChar (c : Char) : Bool :=
  decide (c ∈ [Char.ofNat 39, '(', ')', '+', '_', ',', '-', '.', '/', ':', '=', '?'])

/-- validBoundaryChars is the SetBoundary character loop: every character is
alphanumeric, special, or a space whose index is not the last index. -/
def validBoundaryChars (b : List Char) : Bool :=
  b.enum.all fun ic =>
    isBoundaryAlnum ic.2 || isBoundarySpecialChar ic.2
      || (ic.2 == ' ' && ic.1 != b.length - 1)

/-- setBoundary models Source.SetBoundary: reject while a part is active,
then validate length 1..70 and the characters, and only on success install
the new boundary.  The paired Source is the state after the call (unchanged
on every failure). -/
def Source.setBoundary (s : Source) (b : List Char) : Option BoundaryError × Source :=
  if s.lastPart.isSome then (some .calledAfterRead, s)
  else if b.length < 1 ∨ 70 < b.length then (some .invalidLength, s)
  else if validBoundaryChars b then (none, { s with boundary := b })
  else (some .invalidChar, s)

/-- close models Source.Close: stop the sequence, clear the boundary and
buffers, drop the active part and mark the source closed.  Go does not
reset the pull iterator field, so pullState is kept. -/
def Source.close (s : Source) : Source :=
  { s with boundary := [], buffered := [], firstHeadingWritten := false,
           finalizing := false, lastPart := none, closed := true }

/-- specBoundaryCharOk restates the character condition of the boundary
acceptance claim: an ASCII letter, an ASCII digit, or one of the listed
punctuation characters (apostrophe is Char.ofNat 39). -/
def specBoundaryCharOk (c : Char) : Prop :=
  ('A' ≤ c ∧ c ≤ 'Z') ∨ ('a' ≤ c ∧ c ≤ 'z') ∨ ('0' ≤ c ∧ c ≤ '9')
    ∨ c ∈ [Char.ofNat 39, '(', ')', '+', '_', ',', '-', '.', '/', ':', '=', '?']

/-- specValidBoundary restates the boundary acceptance claim: length between
1 and 70 and every character (taken with its position) acceptable, a space
only when it is not the final character. -/
def specValidBoundary (b : List Char) : Prop :=
  1 ≤ b.length ∧ b.length ≤ 70 ∧
    ∀ ic ∈ b.enum, specBoundaryCharOk ic.2 ∨ (ic.2 = ' ' ∧ ic.1 ≠ b.length - 1)

instance (b : List Char) : Decidable (specValidBoundary b) := by
  unfold specValidBoundary specBoundaryCharOk
  infer_instance

/-- finalizingSource is a concrete Source caught mid-finalization: one read
of an empty sequence with a small chunk switches it to finalizing with the
whole trailer staged and partly drained. -/
def finalizingSource : Source :=
  ((NewSource "B".data []).read 5).2.2

/-- sampleHeaderPart is the part of the sorted-header scenario: header keys
A, B (multi-valued), C, M, Z and content foo. -/
def sampleHeaderPart : Part :=
  ⟨[("A", ["2"]), ("B", ["5", "7", "6"]), ("C", ["4"]), ("M", ["3"]), ("Z", ["1"])],
    "foo".data, "", none⟩

/-- isTSpecialChar models the tspecials set of the standard library media
type formatter. -/
def isTSpecialChar (c : Char) : Bool :=
  "()<>@,;:\\\"/[]?=".data.contains c

/-- isTokenChar models the HTTP token character test of the standard
library media type formatter. -/
def isTokenChar (c : Char) : Bool :=
  decide (0x20 < c.toNat ∧ c.toNat < 0x7f) && !(isTSpecialChar c)

/-- escapeQuoted escapes a quoted-string body: backslash before every
double quote and backslash. -/
def escapeQuoted : List Char → List Char
  | [] => []
  | c :: rest => (if c = '"' ∨ c = '\\' then ['\\', c] else [c]) ++ escapeQuoted rest

/-- formatParamValue writes a media type parameter value: verbatim when it
is a nonempty token, quoted with escapes otherwise. -/
def formatParamValue (v : String) : String :=
  if v ≠ "" ∧ v.data.all isTokenChar then v
  else ⟨'"' :: (escapeQuoted v.data ++ ['"'])⟩

/-- insertParamByKey is the insertion step of the parameter key sort. -/
def insertParamByKey (x : String × String) :
    List (String × String) → List (String × String)
  | [] => [x]
  | y :: ys => if keyLt x.1 y.1 then x :: y :: ys else y :: insertParamByKey x ys

/-- sortParams sorts parameters by attribute name, as the standard library
media type formatter does before writing them. -/
def sortParams : List (String × String) → List (String × String)
  | [] => []
  | x :: xs => insertParamByKey x (sortParams xs)

/-- formatMediaType is modelled from the spec: stand-in for the external
mime.FormatMediaType collaborator, for the media types this repository
feeds it (a valid lowercase type and token attribute names): the type, then
for each parameter in ascending attribute order a "; name=value" item with
the value quoted when it is not a nonempty token. -/
def formatMediaType (t : String) (ps : List (String × String)) : String :=
  t ++ String.join ((sortParams ps).map fun kv => "; " ++ kv.1 ++ "=" ++ formatParamValue kv.2)

/-- unquoteParam strips one layer of surrounding double quotes from a
parameter value. -/
def unquoteParam (v : String) : String :=
  if v.startsWith "\"" && v.endsWith "\"" && decide (2 ≤ v.length) then
    (v.drop 1).dropRight 1
  else v

/-- parseParamSegs parses the attribute=value segments of a media type. -/
def parseParamSegs : List String → Option (List (String × String))
  | [] => some []
  | seg :: rest =>
      match seg.trim.splitOn "=" with
      | [] => none
      | [_] => none
      | k :: v :: vs =>
          match parseParamSegs rest with
          | none => none
          | some ps =>
              some ((k.trim.toLower, unquoteParam (String.intercalate "=" (v :: vs))) :: ps)

/-- parseMediaType is modelled from the spec: stand-in for the external
mime.ParseMediaType collaborator; it splits on semicolons, lowercases and
trims the media type, and parses attribute=value parameters with optional
quoting.  Only the cache-miss branch of parseContentDisposition reaches it,
and no settled claim exercises that branch. -/
def parseMediaType (s : String) : Option (String × List (String × String)) :=
  match s.splitOn ";" with
  | [] => none
  | t :: rest =>
      if t.trim.toLower = "" then none
      else
        match parseParamSegs rest with
        | none => none
        | some ps => some (t.trim.toLower, ps)

/-- httpDetectContentType is modelled from the spec: stand-in for the
external net/http.DetectContentType collaborator, an opaque pure classifier
of the peeked bytes; no claim depends on the classification it returns,
only on how the Part uses it. -/
def httpDetectContentType (_sig : List Char) : String :=
  "application/octet-stream"

/-- setContent models Part.SetContent. -/
def Part.setContent (p : Part) (c : List Char) : Part :=
  { p with content := c }

/-- setContentType models Part.SetContentType. -/
def Part.setContentType (p : Part) (ct : String) : Part :=
  { p with header := headerSet p.header "Content-Type" ct }

/-- contentType models Part.ContentType: the first Content-Type header
value. -/
def Part.contentType (p : Part) : String :=
  headerGet p.header "Content-Type"

/-- setFormName models Part.SetFormName: store the name parameter in the
disposition cache (creating the map when nil), re-serialize the
Content-Disposition value and set the header. -/
def Part.setFormName (p : Part) (formName : String) : Part :=
  let ps := paramsSet (p.dispositionParams.getD []) "name" formName
  let d := formatMediaType "form-data" ps
  { p with dispositionParams := some ps, disposition := d,
           header := headerSet p.header "Content-Disposition" d }

/-- setFileName models Part.SetFileName: store the filename parameter in
the disposition cache, re-serialize the Content-Disposition header, then
unconditionally set Content-Type to application/octet-stream.  Assigning
into a nil Go map panics, modelled as none. -/
def Part.setFileName (p : Part) (fileName : String) : Option Part :=
  match p.dispositionParams with
  | none => none
  | some ps0 =>
      let ps := paramsSet ps0 "filename" fileName
      let d := formatMediaType "form-data" ps
      some { p with
              dispositionParams := some ps,
              disposition := d,
              header := headerSet (headerSet p.header "Content-Disposition" d)
                          "Content-Type" "application/octet-stream" }

/-- parseContentDisposition models Part.parseContentDisposition: with no
Content-Disposition header, clear the cache; when the cached disposition
string equals the live header value and the parameter map exists, keep the
cache; otherwise reparse, falling back to empty parameters on a parse
error. -/
def Part.parseContentDisposition (p : Part) : Part :=
  match headerValues p.header "Content-Disposition" with
  | [] => { p with disposition := "", dispositionParams := some [] }
  | v0 :: _ =>
      if p.dispositionParams.isSome ∧ p.disposition = v0 then p
      else
        match parseMediaType v0 with
        | some td => { p with disposition := td.1, dispositionParams := some td.2 }
        | none => { p with disposition := "", dispositionParams := some [] }

/-- formName models Part.FormName: parse (or reuse) the disposition cache,
then return the name parameter only when the cached disposition equals
form-data. -/
def Part.formName (p : Part) : String :=
  let q := p.parseContentDisposition
  if q.disposition ≠ "form-data" then "" else paramsGet (q.dispositionParams.getD []) "name"

/-- detectContentType models the bufio-based Part.DetectContentType: wrap
the content in a buffered reader, peek up to 512 bytes without consuming
them, classify, and keep the buffered reader as the content.  Reading the
buffered reader to exhaustion yields the peeked bytes followed by the
untouched remainder, hence the take-append-drop content. -/
def Part.detectContentType (p : Part) : Part :=
  (p.setContent (p.content.take 512 ++ p.content.drop 512)).setContentType
    (httpDetectContentType (p.content.take 512))

end Itermultipart

namespace Itermultipart

/-- C1: a Source with explicit boundary MIMEBOUNDARY over the single part
with header map A 2, B 5 7 6, C 4, M 3, Z 1 and content foo, read to
exhaustion, delivers exactly the expected encoding: keys ascending, the
multi-valued key in insertion order, one blank line before the content and
the closing delimiter line after it. -/
theorem c1_sorted_header_exact_output :
    readAll 6 (NewSource "MIMEBOUNDARY".data [sampleHeaderPart]) 512
      = some ("--MIMEBOUNDARY\r\nA: 2\r\nB: 5\r\nB: 7\r\nB: 6\r\nC: 4\r\nM: 3\r\nZ: 1\r\n\r\nfoo\r\n--MIMEBOUNDARY--\r\n".data) := by
  decide

/-- validBoundaryChars accepts exactly the character condition stated by the
boundary acceptance claim. -/
theorem validBoundaryChars_iff (b : List Char) :
    validBoundaryChars b = true
      ↔ ∀ ic ∈ b.enum, specBoundaryCharOk ic.2 ∨ (ic.2 = ' ' ∧ ic.1 ≠ b.length - 1) := by
  unfold validBoundaryChars specBoundaryCharOk isBoundaryAlnum isBoundarySpecialChar
  rw [List.all_eq_true]
  constructor
  · intro h ic hic
    have hb := h ic hic
    simp only [Bool.or_eq_true, Bool.and_eq_true, decide_eq_true_eq, beq_iff_eq,
      bne_iff_ne] at hb
    tauto
  · intro h ic hic
    have hb := h ic hic
    simp only [Bool.or_eq_true, Bool.and_eq_true, decide_eq_true_eq, beq_iff_eq,
      bne_iff_ne]
    tauto

/-- C3: on a Source with no active part (in particular one that has produced
no output), SetBoundary succeeds exactly when the candidate has length 1 to
70 and every character is an ASCII letter, digit, one of the permitted
punctuation marks, or a non-final space; every failure leaves the boundary
unchanged. -/
theorem c3_boundary_acceptance (s : Source) (b : List Char) (h : s.lastPart = none) :
    ((s.setBoundary b).1 = none ↔ specValidBoundary b)
      ∧ ((s.setBoundary b).1 ≠ none → (s.setBoundary b).2.boundary = s.boundary) := by
  have hs : s.lastPart.isSome = false := by rw [h]; rfl
  by_cases hl : b.length < 1 ∨ 70 < b.length
  · have e : s.setBoundary b = (some .invalidLength, s) := by
      unfold Source.setBoundary
      rw [hs, if_neg (by simp), if_pos hl]
    rw [e]
    refine ⟨⟨fun hc => absurd hc (by simp), fun hc => ?_⟩, fun _ => rfl⟩
    exfalso
    obtain ⟨h1, h2, _⟩ := hc
    omega
  · by_cases hv : validBoundaryChars b = true
    · have e : s.setBoundary b = (none, { s with boundary := b }) := by
        unfold Source.setBoundary
        rw [hs, if_neg (by simp), if_neg hl, if_pos hv]
      rw [e]
      refine ⟨⟨fun _ => ⟨by omega, by omega, (validBoundaryChars_iff b).1 hv⟩,
        fun _ => rfl⟩, fun hno => absurd rfl hno⟩
    · have e : s.setBoundary b = (some .invalidChar, s) := by
        unfold Source.setBoundary
        rw [hs, if_neg (by simp), if_neg hl, if_neg hv]
      rw [e]
      refine ⟨⟨fun hc => absurd hc (by simp), fun hc =>
        absurd ((validBoundaryChars_iff b).2 hc.2.2) hv⟩, fun _ => rfl⟩

/-- c3_witness instantiates the boundary acceptance theorem on a fresh
Source and the candidate abc. -/
theorem c3_witness :
    (NewSource "B".data []).lastPart = none
      ∧ ((((NewSource "B".data []).setBoundary "abc".data).1 = none
            ↔ specValidBoundary "abc".data)
          ∧ (((NewSource "B".data []).setBoundary "abc".data).1 ≠ none
              → ((NewSource "B".data []).setBoundary "abc".data).2.boundary
                  = (NewSource "B".data []).boundary)) :=
  ⟨rfl, c3_boundary_acceptance _ _ rfl⟩

/-- c4_counterexample: a Source that has already delivered the content byte
of its only part (the first read returns the heading plus the byte a) and
has released the exhausted part accepts a later SetBoundary call: the call
returns no error and replaces the boundary, where the claim demands
failure. -/
theorem c4_counterexample :
    ((NewSource "B".data [⟨[], "a".data, "", none⟩]).read 100).1 = "--B\r\n\r\na".data
    ∧ ((((NewSource "B".data [⟨[], "a".data, "", none⟩]).read 100).2.2.read
          100).2.2.setBoundary "abc".data).1 = none
    ∧ ((((NewSource "B".data [⟨[], "a".data, "", none⟩]).read 100).2.2.read
          100).2.2.setBoundary "abc".data).2.boundary = "abc".data := by
  decide

/-- C4 (amended): while the Source holds an active part, SetBoundary fails
with the called-after-read error and the state, in particular the boundary,
is unchanged; once the active part is released the gate no longer applies
(see the counterexample). -/
theorem c4_active_part_boundary_locked (s : Source) (b : List Char)
    (h : s.lastPart.isSome = true) :
    (s.setBoundary b).1 = some .calledAfterRead ∧ (s.setBoundary b).2 = s := by
  constructor <;> simp [Source.setBoundary, h]

/-- c4_witness instantiates the amended theorem on a Source that is midway
through streaming a part. -/
theorem c4_witness :
    (((NewSource "B".data [⟨[], "ab".data, "", none⟩]).read 3).2.2.lastPart.isSome = true)
    ∧ (((((NewSource "B".data [⟨[], "ab".data, "", none⟩]).read 3).2.2.setBoundary
          "xy".data).1 = some .calledAfterRead)
        ∧ ((((NewSource "B".data [⟨[], "ab".data, "", none⟩]).read 3).2.2.setBoundary
              "xy".data).2
            = ((NewSource "B".data [⟨[], "ab".data, "", none⟩]).read 3).2.2)) :=
  ⟨by decide, c4_active_part_boundary_locked _ _ (by decide)⟩

/-- c5_counterexample: a finalizing Source whose trailer buffer still holds
bytes answers a zero-capacity Read call with io.EOF, although the trailer
buffer is not fully drained, where the claim allows EOF only after the
trailer is drained. -/
theorem c5_counterexample :
    (((NewSource "B".data []).read 1).2.2.finalizing = true)
    ∧ (((NewSource "B".data []).read 1).2.2.buffered ≠ [])
    ∧ ((((NewSource "B".data []).read 1).2.2.read 0).2.1 = .eof) := by
  decide

/-- C5 (amended): once the Source is finalizing, a Read call with a nonempty
destination buffer that delivered at least one trailer byte returns without
the end-of-stream signal; the end-of-stream signal comes only from a call
that delivered zero bytes with the trailer buffer already fully drained;
end-of-stream never accompanies delivered bytes.  (A zero-capacity call can
return EOF with trailer bytes pending, see the counterexample.) -/
theorem c5_finalizing_eof_discipline (s : Source) (cap : Nat)
    (hclosed : s.closed = false) (hfin : s.finalizing = true) (hcap : 1 ≤ cap) :
    ((s.read cap).1 ≠ [] → (s.read cap).2.1 = .ok)
    ∧ ((s.read cap).2.1 = .eof → (s.read cap).1 = [] ∧ s.buffered = [])
    ∧ ¬((s.read cap).2.1 = .eof ∧ (s.read cap).1 ≠ []) := by
  have hdis : ¬(s.lastPart = none ∧ s.finalizing = false) := by
    intro hc
    rw [hfin] at hc
    exact absurd hc.2 (by simp)
  by_cases hb : s.buffered.take cap = []
  · have e : s.read cap
        = ([], .eof,
            { s with pullState := some (s.pullState.getD s.parts),
                     buffered := s.buffered.drop cap }) := by
      unfold Source.read readCore afterPull
      rw [if_neg (by rw [hclosed]; simp)]
      rw [if_neg (by simpa using hdis)]
      rw [if_pos (by simpa using hfin), if_pos (by simpa using hb)]
    rw [e]
    have hbnil : s.buffered = [] := by
      rcases List.take_eq_nil_iff.1 hb with h1 | h1
      · omega
      · exact h1
    exact ⟨fun hc => absurd rfl hc, fun _ => ⟨rfl, hbnil⟩, fun hc => absurd rfl hc.2⟩
  · have e : s.read cap
        = (s.buffered.take cap, .ok,
            { s with pullState := some (s.pullState.getD s.parts),
                     buffered := s.buffered.drop cap }) := by
      unfold Source.read readCore afterPull
      rw [if_neg (by rw [hclosed]; simp)]
      rw [if_neg (by simpa using hdis)]
      rw [if_pos (by simpa using hfin), if_neg (by simpa using hb)]
    rw [e]
    exact ⟨fun _ => rfl, fun hc => absurd hc (by simp), fun hc => absurd hc.1 (by simp)⟩

/-- c5_witness instantiates the finalizing discipline theorem on the Source
obtained by one read of an empty sequence, with chunk capacity one. -/
theorem c5_witness :
    (finalizingSource.closed = false ∧ finalizingSource.finalizing = true ∧ 1 ≤ 1)
    ∧ (((finalizingSource.read 1).1 ≠ [] → (finalizingSource.read 1).2.1 = .ok)
        ∧ ((finalizingSource.read 1).2.1 = .eof
            → (finalizingSource.read 1).1 = [] ∧ finalizingSource.buffered = [])
        ∧ ¬((finalizingSource.read 1).2.1 = .eof ∧ (finalizingSource.read 1).1 ≠ [])) :=
  ⟨⟨by decide, by decide, by decide⟩,
    c5_finalizing_eof_discipline finalizingSource 1 (by decide) (by decide) (by decide)⟩

/-- endingSuffix: the trailer is a suffix of every bulk encoding, whatever
the first-heading flag. -/
theorem endingSuffix (bd : List Char) :
    ∀ (parts : List Part) (fhw : Bool),
      populateEnding bd <:+ writeToLoop fhw bd parts := by
  intro parts
  induction parts with
  | nil => intro fhw; exact List.suffix_rfl
  | cons p rest ih =>
      intro fhw
      exact ((ih true).trans (List.suffix_append _ _)).trans (List.suffix_append _ _)

/-- c6_counterexample: for the empty part sequence the complete encoded
output is exactly the closing delimiter line, which begins with a carriage
return, where the claim says the output never begins with one. -/
theorem c6_counterexample :
    (NewSource "B".data []).writeTo = some "\r\n--B--\r\n".data
    ∧ "\r\n--B--\r\n".data.head? = some (Char.ofNat 13) := by
  decide

/-- C6 (amended): for every nonempty part sequence the complete encoded
output begins with a dash (in particular not with a carriage return or line
feed), and for every part sequence, the empty one included, it ends with
the exact closing delimiter line CRLF dash dash boundary dash dash CRLF. -/
theorem c6_output_shape (bd : List Char) (parts : List Part) :
    (∀ p rest, parts = p :: rest → (writeToLoop false bd parts).head? = some '-')
    ∧ populateEnding bd <:+ writeToLoop false bd parts := by
  constructor
  · intro p rest hp
    subst hp
    rfl
  · exact endingSuffix bd parts false

/-- c6_witness instantiates the output shape theorem on boundary B and a
one-part sequence. -/
theorem c6_witness :
    (writeToLoop false "B".data [NewPart]).head? = some '-'
    ∧ populateEnding "B".data <:+ writeToLoop false "B".data [NewPart] :=
  ⟨(c6_output_shape "B".data [NewPart]).1 NewPart [] rfl,
    (c6_output_shape "B".data [NewPart]).2⟩

/-- headerGet_headerSet: getting a key right after setting it returns the
value just set. -/
theorem headerGet_headerSet (h : List (String × List String)) (k v : String) :
    headerGet (headerSet h k v) k = v := by
  induction h with
  | nil => simp [headerSet, headerGet, headerValues]
  | cons kv rest ih =>
      by_cases hk : kv.1 = k
      · simp [headerSet, hk, headerGet, headerValues]
      · simpa [headerSet, hk, headerGet, headerValues] using ih

/-- headerGet_headerSet_ne: setting one key leaves every other key's value
unchanged. -/
theorem headerGet_headerSet_ne (h : List (String × List String)) (k1 k2 v : String)
    (hne : k1 ≠ k2) :
    headerGet (headerSet h k1 v) k2 = headerGet h k2 := by
  induction h with
  | nil => simp [headerSet, headerGet, headerValues, hne]
  | cons kv rest ih =>
      by_cases hk : kv.1 = k1
      · simp [headerSet, hk, headerGet, headerValues, hne]
      · by_cases hk2 : kv.1 = k2
        · simp [headerSet, hk, headerGet, headerValues, hk2, Ne.symm hne]
        · simpa [headerSet, hk, headerGet, headerValues, hk2] using ih

/-- c7_counterexample: a Part whose Content-Type was explicitly set to
text/html before SetFileName ends up with Content-Type
application/octet-stream, where the claim says the explicit value must
survive. -/
theorem c7_counterexample :
    (((NewPart.setFormName "x").setContentType "text/html").setFileName "a.txt").map
        Part.contentType
      = some "application/octet-stream"
    ∧ "application/octet-stream" ≠ "text/html" := by
  decide

/-- C7 (amended): every successful SetFileName sets the Content-Type header
to application/octet-stream, overwriting any explicitly set value, and
re-serializes the Content-Disposition header with the new filename
parameter: the cached disposition value and the Content-Disposition header
both become the serialization of the cached parameters extended with the
filename parameter. -/
theorem c7_set_file_name_overwrites_content_type (p : Part) (f : String) (q : Part)
    (hq : p.setFileName f = some q) :
    q.contentType = "application/octet-stream"
    ∧ q.disposition
        = formatMediaType "form-data" (paramsSet (p.dispositionParams.getD []) "filename" f)
    ∧ headerGet q.header "Content-Disposition"
        = formatMediaType "form-data" (paramsSet (p.dispositionParams.getD []) "filename" f) := by
  unfold Part.setFileName at hq
  cases hps : p.dispositionParams with
  | none => rw [hps] at hq; cases hq
  | some ps0 =>
      rw [hps] at hq
      have hq2 := Option.some.inj hq
      rw [← hq2]
      refine ⟨?_, rfl, ?_⟩
      · unfold Part.contentType
        exact headerGet_headerSet _ _ _
      · dsimp only
        rw [headerGet_headerSet_ne _ "Content-Type" "Content-Disposition" _ (by decide)]
        exact headerGet_headerSet _ _ _

/-- c7_witness instantiates the amended SetFileName theorem on a part that
had a form name set first. -/
theorem c7_witness :
    ∃ q, (NewPart.setFormName "x").setFileName "a.txt" = some q
      ∧ q.contentType = "application/octet-stream"
      ∧ q.disposition
          = formatMediaType "form-data"
              (paramsSet ((NewPart.setFormName "x").dispositionParams.getD [])
                "filename" "a.txt")
      ∧ headerGet q.header "Content-Disposition"
          = formatMediaType "form-data"
              (paramsSet ((NewPart.setFormName "x").dispositionParams.getD [])
                "filename" "a.txt") := by
  refine ⟨_, rfl, c7_set_file_name_overwrites_content_type (NewPart.setFormName "x")
    "a.txt" _ rfl⟩

/-- C8: DetectContentType preserves the content stream: the bytes the
buffered reader delivers after the peek are exactly the original content,
so nothing is lost from the final encoded output. -/
theorem c8_detect_content_type_preserves_content (p : Part) :
    (p.detectContentType).content = p.content := by
  unfold Part.detectContentType Part.setContent Part.setContentType
  exact List.take_append_drop 512 p.content

/-- c9_counterexample: SetBoundary on a closed Source succeeds (no error,
boundary replaced), where the claim says every operation must fail after
Close. -/
theorem c9_counterexample :
    (((NewSource "B".data []).close).setBoundary "abc".data).1 = none
    ∧ (((NewSource "B".data []).close).setBoundary "abc".data).2.boundary = "abc".data := by
  decide

/-- C9 (amended): after Close the data-producing operations fail with the
closed-source error: Read delivers nothing and errors, WriteTo errors.
SetBoundary is not gated on the closed flag and can still succeed (see the
counterexample). -/
theorem c9_closed_data_ops_fail (s : Source) (cap : Nat) (h : s.closed = true) :
    s.read cap = ([], .errClosed, s) ∧ s.writeTo = none := by
  constructor
  · unfold Source.read
    rw [if_pos (by rw [h])]
  · unfold Source.writeTo
    rw [if_pos (by rw [h])]

/-- c9_witness instantiates the closed-operations theorem on a freshly
closed Source. -/
theorem c9_witness :
    ((NewSource "B".data []).close.closed = true)
    ∧ ((NewSource "B".data []).close.read 7
          = ([], .errClosed, (NewSource "B".data []).close)
        ∧ (NewSource "B".data []).close.writeTo = none) :=
  ⟨by decide, c9_closed_data_ops_fail _ 7 (by decide)⟩

/-- C10: on a fresh Part, FormName after SetFormName returns the empty
string, not the name just set: the cached disposition field holds the full
serialized header value form-data; name=foo, which never equals form-data,
so the getter's disposition check fails even though the header is of
form-data type.  This contradicts FormName's own documentation and the
claimed round-trip. -/
theorem c10_form_name_after_set_form_name :
    (NewPart.setFormName "foo").formName = "" ∧ "foo" ≠ "" := by
  decide

/-- read_eq_afterPull: when the pull iterator exists and no pull is due (a
part is active or the source is finalizing), a read call is exactly the
drain-and-stream tail. -/
theorem read_eq_afterPull (s : Source) (cap : Nat) (rp : List Part)
    (hc : s.closed = false) (hp : s.pullState = some rp)
    (hdis : ¬(s.lastPart = none ∧ s.finalizing = false)) :
    s.read cap = afterPull s cap := by
  obtain ⟨bd, parts, pull, buf, fhw, lp, fin, cl⟩ := s
  simp only at hc hp hdis
  subst hc hp
  simp [Source.read, readCore, hdis]

/-- read_finalize: with the sequence exhausted, a read call switches to
finalizing, stages the trailer and reads from it. -/
theorem read_finalize (s : Source) (cap : Nat)
    (hc : s.closed = false) (hp : s.pullState = some [])
    (hl : s.lastPart = none) (hf : s.finalizing = false) :
    s.read cap
      = ((populateEnding s.boundary).take cap, .ok,
          { s with finalizing := true,
                   buffered := (populateEnding s.boundary).drop cap }) := by
  obtain ⟨bd, parts, pull, buf, fhw, lp, fin, cl⟩ := s
  simp only at hc hp hl hf
  subst hc hp hl hf
  simp [Source.read, readCore]

/-- read_pull: with parts remaining and no active part, a read call stages
the next part's heading, makes it active and runs the drain-and-stream
tail. -/
theorem read_pull (s : Source) (cap : Nat) (p : Part) (rest : List Part)
    (hc : s.closed = false) (hp : s.pullState = some (p :: rest))
    (hl : s.lastPart = none) (hf : s.finalizing = false) :
    s.read cap
      = afterPull
          { s with pullState := some rest,
                   lastPart := some p.content,
                   firstHeadingWritten := true,
                   buffered := populatePartHeading s.firstHeadingWritten s.boundary p }
          cap := by
  obtain ⟨bd, parts, pull, buf, fhw, lp, fin, cl⟩ := s
  simp only at hc hp hl hf
  subst hc hp hl hf
  simp [Source.read, readCore]

/-- read_init: the first read call creates the pull iterator from the parts
field and proceeds like a read on the initialized source. -/
theorem read_init (s : Source) (cap : Nat)
    (hc : s.closed = false) (hp : s.pullState = none) :
    s.read cap = Source.read { s with pullState := some s.parts } cap := by
  obtain ⟨bd, parts, pull, buf, fhw, lp, fin, cl⟩ := s
  simp only at hc hp
  subst hc hp
  simp [Source.read]

/-- readAll_init: driving the fresh source is driving the initialized
source. -/
theorem readAll_init (s : Source) (c f : Nat)
    (hc : s.closed = false) (hp : s.pullState = none) :
    readAll (f + 1) s c = readAll (f + 1) { s with pullState := some s.parts } c := by
  rw [readAll, readAll, read_init s c hc hp]

/-- afterPull_fin: the drain-and-stream tail of a finalizing source drains
the trailer and signals EOF only on an empty delivery. -/
theorem afterPull_fin (s : Source) (cap : Nat) (hf : s.finalizing = true) :
    afterPull s cap
      = if s.buffered.take cap = [] then
          ([], .eof, { s with buffered := s.buffered.drop cap })
        else
          (s.buffered.take cap, .ok, { s with buffered := s.buffered.drop cap }) := by
  obtain ⟨bd, parts, pull, buf, fhw, lp, fin, cl⟩ := s
  simp only at hf
  subst hf
  simp [afterPull]

/-- afterPull_content_nil: an active part with exhausted content is
released by the call (content read yields EOF), which still returns the
drained buffer bytes without an end-of-stream signal. -/
theorem afterPull_content_nil (s : Source) (cap : Nat)
    (hf : s.finalizing = false) (hl : s.lastPart = some []) :
    afterPull s cap
      = (s.buffered.take cap, .ok,
          { s with buffered := s.buffered.drop cap, lastPart := none }) := by
  obtain ⟨bd, parts, pull, buf, fhw, lp, fin, cl⟩ := s
  simp only at hf hl
  subst hf hl
  simp [afterPull]

/-- afterPull_content: an active part with nonempty content delivers the
drained buffer bytes then content bytes up to the remaining capacity. -/
theorem afterPull_content (s : Source) (cap : Nat) (cont : List Char)
    (hf : s.finalizing = false) (hl : s.lastPart = some cont) (hcont : cont ≠ []) :
    afterPull s cap
      = (s.buffered.take cap ++ cont.take (cap - (s.buffered.take cap).length), .ok,
          { s with buffered := s.buffered.drop cap,
                   lastPart := some (cont.drop (cap - (s.buffered.take cap).length)) }) := by
  obtain ⟨bd, parts, pull, buf, fhw, lp, fin, cl⟩ := s
  simp only at hf hl
  subst hf hl
  simp [afterPull, hcont]

/-- readAll_finalizing: a finalizing source, driven with a positive chunk
capacity and enough fuel, delivers exactly its staged trailer bytes. -/
theorem readAll_finalizing : ∀ (k : Nat) (s : Source) (c fuel : Nat) (rp : List Part),
    s.closed = false → s.finalizing = true → s.pullState = some rp → 1 ≤ c →
    s.buffered.length ≤ k → k + 1 ≤ fuel →
    readAll fuel s c = some s.buffered := by
  intro k
  induction k with
  | zero =>
      intro s c fuel rp hc hf hp hcap hlen hfuel
      have hb : s.buffered = [] := List.eq_nil_of_length_eq_zero (Nat.le_zero.1 hlen)
      obtain ⟨f, rfl⟩ : ∃ f, fuel = f + 1 := ⟨fuel - 1, by omega⟩
      rw [readAll,
        read_eq_afterPull s c rp hc hp (fun hcon => by rw [hf] at hcon; cases hcon.2),
        afterPull_fin s c hf, hb]
      simp
  | succ k ih =>
      intro s c fuel rp hc hf hp hcap hlen hfuel
      obtain ⟨f, rfl⟩ : ∃ f, fuel = f + 1 := ⟨fuel - 1, by omega⟩
      by_cases hb : s.buffered = []
      · rw [readAll,
          read_eq_afterPull s c rp hc hp (fun hcon => by rw [hf] at hcon; cases hcon.2),
          afterPull_fin s c hf, hb]
        simp
      · have htake : s.buffered.take c ≠ [] := by
          intro hcon
          rcases List.take_eq_nil_iff.1 hcon with h1 | h1
          · omega
          · exact hb h1
        rw [readAll,
          read_eq_afterPull s c rp hc hp (fun hcon => by rw [hf] at hcon; cases hcon.2),
          afterPull_fin s c hf, if_neg htake]
        have hrec := ih { s with buffered := s.buffered.drop c } c f rp
        obtain ⟨bd, parts, pull, buf, fhw, lp, fin, cl⟩ := s
        simp only at hc hf hp hb hlen hrec ⊢
        subst hc hf hp
        rw [hrec rfl rfl rfl hcap
          (by rw [List.length_drop]; omega)
          (by omega)]
        simp [List.take_append_drop]

/-- readAll_content: driving a source with an active part eventually drains
the staged heading and the remaining content, releases the part, and then
behaves like the released source: whatever that one delivers, the original
delivers the staged bytes, the content, and then the same. -/
theorem readAll_content : ∀ (k : Nat) (s : Source) (cont : List Char) (rp : List Part) (c : Nat),
    s.closed = false → s.finalizing = false → s.lastPart = some cont →
    s.pullState = some rp → 1 ≤ c → (cont = [] → s.buffered = []) →
    s.buffered.length + cont.length ≤ k →
    ∃ n, ∀ fuel out,
      readAll fuel { s with lastPart := none, buffered := [] } c = some out →
      readAll (n + fuel) s c = some (s.buffered ++ (cont ++ out)) := by
  intro k
  induction k with
  | zero =>
      intro s cont rp c hc hf hl hp hcap hnil hlen
      obtain ⟨bd, parts, pull, buf, fhw, lp, fin, cl⟩ := s
      simp only at hc hf hl hp hnil hlen ⊢
      subst hc hf hl hp
      have hcont : cont = [] := by
        cases cont with
        | nil => rfl
        | cons ch ct => simp at hlen
      subst hcont
      have hb : buf = [] := hnil rfl
      subst hb
      refine ⟨1, ?_⟩
      intro fuel out hout
      rw [show (1 : Nat) + fuel = fuel + 1 by omega, readAll,
        read_eq_afterPull _ c rp rfl rfl (by simp),
        afterPull_content_nil _ c rfl rfl]
      simp only [List.take_nil, List.drop_nil]
      rw [hout]
      simp
  | succ k ih =>
      intro s cont rp c hc hf hl hp hcap hnil hlen
      obtain ⟨bd, parts, pull, buf, fhw, lp, fin, cl⟩ := s
      simp only at hc hf hl hp hnil hlen ⊢
      subst hc hf hl hp
      cases cont with
      | nil =>
          have hb : buf = [] := hnil rfl
          subst hb
          refine ⟨1, ?_⟩
          intro fuel out hout
          rw [show (1 : Nat) + fuel = fuel + 1 by omega, readAll,
            read_eq_afterPull _ c rp rfl rfl (by simp),
            afterPull_content_nil _ c rfl rfl]
          simp only [List.take_nil, List.drop_nil]
          rw [hout]
          simp
      | cons ch ct =>
          have h1 : (List.take c buf).length = min c buf.length := List.length_take c buf
          have hread :=
            read_eq_afterPull ⟨bd, parts, some rp, buf, fhw, some (ch :: ct), false, false⟩
              c rp rfl rfl (by simp)
          rw [afterPull_content _ c (ch :: ct) rfl rfl (by simp)] at hread
          obtain ⟨n, hn⟩ :=
            ih ⟨bd, parts, some rp, List.drop c buf, fhw,
                some ((ch :: ct).drop (c - (List.take c buf).length)), false, false⟩
              ((ch :: ct).drop (c - (List.take c buf).length)) rp c rfl rfl rfl rfl hcap
              (by
                intro hdc
                by_cases hc2 : c - (List.take c buf).length = 0
                · rw [hc2] at hdc
                  simp at hdc
                · exact List.drop_eq_nil_of_le (by omega))
              (by
                simp only [List.length_drop, List.length_cons] at hlen ⊢
                omega)
          refine ⟨n + 1, ?_⟩
          intro fuel out hout
          have h2 := hn fuel out (by exact hout)
          rw [show n + 1 + fuel = (n + fuel) + 1 by omega, readAll, hread]
          dsimp only
          rw [h2]
          simp only [Option.map_some', Option.some.injEq]
          by_cases hble : c ≤ buf.length
          · have hc2 : c - (List.take c buf).length = 0 := by omega
            rw [hc2]
            simp only [List.take_zero, List.drop_zero, List.append_nil]
            rw [← List.append_assoc, List.take_append_drop]
          · have hdp : List.drop c buf = [] := List.drop_eq_nil_of_le (by omega)
            have htk : List.take c buf = buf := List.take_of_length_le (by omega)
            rw [hdp, htk]
            simp only [List.nil_append, List.append_assoc]
            rw [← List.append_assoc ((ch :: ct).take (c - buf.length))
                ((ch :: ct).drop (c - buf.length)) out]
            rw [List.take_append_drop]

/-- readAll_master: an initialized idle source (no active part, empty
staging buffer, not finalizing) whose remaining parts all have nonempty
content delivers, with any positive chunk capacity and enough fuel, exactly
the bulk encoding of those parts. -/
theorem readAll_master : ∀ (rest : List Part) (s : Source) (c : Nat),
    s.closed = false → s.finalizing = false → s.lastPart = none → s.buffered = [] →
    s.pullState = some rest → 1 ≤ c → (∀ p ∈ rest, p.content ≠ []) →
    ∃ N, ∀ fuel, N ≤ fuel →
      readAll fuel s c = some (writeToLoop s.firstHeadingWritten s.boundary rest) := by
  intro rest
  induction rest with
  | nil =>
      intro s c hc hf hl hb hp hcap hne
      obtain ⟨bd, parts, pull, buf, fhw, lp, fin, cl⟩ := s
      simp only at hc hf hl hb hp ⊢
      subst hc hf hl hb hp
      refine ⟨(populateEnding bd).length + 2, ?_⟩
      intro fuel hfuel
      obtain ⟨f, rfl⟩ : ∃ f, fuel = f + 1 := ⟨fuel - 1, by omega⟩
      rw [readAll, read_finalize _ c rfl rfl rfl rfl]
      dsimp only
      rw [readAll_finalizing ((populateEnding bd).drop c).length
        ⟨bd, parts, some [], (populateEnding bd).drop c, fhw, none, true, false⟩
        c f [] rfl rfl rfl hcap (Nat.le_refl _) (by rw [List.length_drop]; omega)]
      dsimp only
      simp only [Option.map_some', Option.some.injEq]
      rw [List.take_append_drop]
      rfl
  | cons p rest' ih =>
      intro s c hc hf hl hb hp hcap hne
      obtain ⟨bd, parts, pull, buf, fhw, lp, fin, cl⟩ := s
      simp only at hc hf hl hb hp ⊢
      subst hc hf hl hb hp
      obtain ⟨n, hn⟩ :=
        readAll_content ((populatePartHeading fhw bd p).length + p.content.length)
          ⟨bd, parts, some rest', populatePartHeading fhw bd p, true,
            some p.content, false, false⟩
          p.content rest' c rfl rfl rfl rfl hcap
          (fun hcnil => absurd hcnil (hne p (by simp)))
          (Nat.le_refl _)
      obtain ⟨N2, hN2⟩ :=
        ih ⟨bd, parts, some rest', [], true, none, false, false⟩ c rfl rfl rfl rfl rfl hcap
          (fun q hq => hne q (List.mem_cons_of_mem _ hq))
      refine ⟨n + N2 + 1, ?_⟩
      intro fuel hfuel
      obtain ⟨f, rfl⟩ : ∃ f, fuel = f + 1 := ⟨fuel - 1, by omega⟩
      have hswitch :
          readAll (f + 1) ⟨bd, parts, some (p :: rest'), [], fhw, none, false, false⟩ c
            = readAll (f + 1)
                ⟨bd, parts, some rest', populatePartHeading fhw bd p, true,
                  some p.content, false, false⟩ c := by
        rw [readAll, readAll, read_pull _ c p rest' rfl rfl rfl rfl,
          read_eq_afterPull
            ⟨bd, parts, some rest', populatePartHeading fhw bd p, true,
              some p.content, false, false⟩ c rest' rfl rfl (by simp)]
      rw [hswitch]
      have hout := hN2 (f + 1 - n) (by omega)
      have h3 := hn (f + 1 - n) (writeToLoop true bd rest') (by exact hout)
      rw [show n + (f + 1 - n) = f + 1 by omega] at h3
      rw [h3]
      rfl

/-- c2_counterexample: a single part with empty content and chunk size one:
the incremental reads lose six staged heading bytes (the active part is
released while heading bytes are still buffered, and the next pull resets
the buffer), so the concatenation differs from the bulk WriteTo output of
an identically configured Source. -/
theorem c2_counterexample :
    readAll 20 (NewSource "B".data [⟨[], [], "", none⟩]) 1 = some "-\r\n--B--\r\n".data
    ∧ (NewSource "B".data [⟨[], [], "", none⟩]).writeTo
        = some "--B\r\n\r\n\r\n--B--\r\n".data
    ∧ "-\r\n--B--\r\n".data ≠ "--B\r\n\r\n\r\n--B--\r\n".data := by
  decide

/-- C2 (amended): for every finite part sequence in which every part has
nonempty content, and every positive chunk capacity, the concatenation of
the slices delivered by repeated incremental reads until end-of-stream
equals the byte string an identically configured Source writes in one bulk
WriteTo call.  (A part with empty content can lose staged heading bytes,
see the counterexample.) -/
theorem c2_chunk_size_independence (bd : List Char) (parts : List Part) (c : Nat)
    (hcap : 1 ≤ c) (hne : ∀ p ∈ parts, p.content ≠ []) :
    ∃ fuel, readAll fuel (NewSource bd parts) c = (NewSource bd parts).writeTo := by
  obtain ⟨N, hN⟩ :=
    readAll_master parts ⟨bd, parts, some parts, [], false, none, false, false⟩ c
      rfl rfl rfl rfl rfl hcap hne
  refine ⟨N + 1, ?_⟩
  rw [readAll_init (NewSource bd parts) c N rfl rfl]
  have h1 := hN (N + 1) (by omega)
  have h2 : (NewSource bd parts).writeTo = some (writeToLoop false bd parts) := rfl
  rw [h2]
  exact h1

/-- c2_witness instantiates the chunk-size independence theorem on one part
with content a, boundary B and chunk capacity one. -/
theorem c2_witness :
    (1 ≤ 1 ∧ ∀ p ∈ [(⟨[], "a".data, "", none⟩ : Part)], p.content ≠ [])
    ∧ ∃ fuel, readAll fuel (NewSource "B".data [⟨[], "a".data, "", none⟩]) 1
        = (NewSource "B".data [⟨[], "a".data, "", none⟩]).writeTo :=
  ⟨⟨by decide, by decide⟩,
    c2_chunk_size_independence "B".data [⟨[], "a".data, "", none⟩] 1 (by decide) (by decide)⟩

end Itermultipart
